import Mathlib

/-!
Shallow embedding of the ATLAS-Data-Project coordinator and worker
(src/manager/higgs_manager.py, src/worker/higgs_worker.py,
src/common/comms.py) together with proofs about the claims of the
natural-language specification.

External effects (uproot metadata queries, uuid4 generation, the RabbitMQ
transport, wall-clock time) are modelled as explicit oracle parameters;
Python ints are modelled as Int or Nat as appropriate, Python floats as
rationals, and Python exceptions as explicit outcome constructors.
-/

/-- Mirrors comms.DataBatch: a self-contained work unit.  `processed_data`
is initialised to `None` by the constructor and filled by the worker. -/
structure DataBatch where
  batch_id : String
  sample : String
  subsample : String
  sample_type : String
  path : String
  fraction : ℚ
  start_index : ℤ
  stop_index : ℤ
  processed_data : Option (List ℕ) := none
deriving DecidableEq, Repr

/-- Python's built-in `round` on an exact rational value: round half to
even (banker's rounding), as used in `data_batcher` for
`round(data_num_events * fraction)`. -/
def pyRound (q : ℚ) : ℤ :=
  if q - ⌊q⌋ < 1/2 then ⌊q⌋
  else if 1/2 < q - ⌊q⌋ then ⌊q⌋ + 1
  else if 2 ∣ ⌊q⌋ then ⌊q⌋ else ⌊q⌋ + 1

/-- Python's `range(start, stop, step)` for a positive step, written as the
loop it denotes: emit `start` and continue from `start + step` while
`start < stop`. -/
def pyRangeFrom (stop step start : ℕ) : List ℕ :=
  if _h : 0 < step ∧ start < stop then start :: pyRangeFrom stop step (start + step)
  else []
termination_by stop - start
decreasing_by omega

/-- The per-subgroup body of `data_batcher` (higgs_manager.py lines
154-172): compute `num_events = min(T, round(T * fraction))` and emit one
DataBatch per `start in range(0, num_events, batch_size)` with
`stop = min(start + batch_size, num_events)` and
`fraction = (stop - start) / num_events`.  `ids` is the uuid4 oracle. -/
def subgroup_batches (ids : ℕ → String) (sample subsample sample_type path : String)
    (data_num_events : ℕ) (fraction : ℚ) (batch_size : ℕ) : List DataBatch :=
  let num_events : ℤ := min (data_num_events : ℤ) (pyRound ((data_num_events : ℚ) * fraction))
  (pyRangeFrom num_events.toNat batch_size 0).map (fun (start : ℕ) =>
    let stop : ℤ := min ((start : ℤ) + (batch_size : ℤ)) num_events
    { batch_id := ids start
      sample := sample
      subsample := subsample
      sample_type := sample_type
      path := path
      fraction := ((stop : ℚ) - (start : ℚ)) / (num_events : ℚ)
      start_index := (start : ℤ)
      stop_index := stop
      processed_data := none })

/-- The full `data_batcher`: the double loop over samples and subsamples.
`num_entries` stands for the uproot metadata query, `dsid` for the
infofile lookup and `ids` for the uuid4 oracle. -/
def data_batcher (ids : String → ℕ → String) (num_entries : String → ℕ) (dsid : String → ℕ)
    (samples : List (String × List String)) (path : String) (fraction : ℚ)
    (batch_size : ℕ) : List DataBatch :=
  samples.flatMap (fun g =>
    g.2.flatMap (fun subsample =>
      let info := if g.1 = "data" then ("measured", "Data/")
                  else ("monte-carlo", "MC/mc_" ++ toString (dsid subsample) ++ ".")
      let path_subsample := path ++ info.2 ++ subsample ++ ".4lep.root"
      subgroup_batches (ids subsample) g.1 subsample info.1 path_subsample
        (num_entries path_subsample) fraction batch_size))

/-- Set of batch ids of a list of batches, as built by `missing_batches`
through Python set comprehensions. -/
def idSet (batches : List DataBatch) : Finset String :=
  (batches.map (fun b => b.batch_id)).toFinset

/-- Lookup in the Python dict `{batch.batch_id: batch for batch in expected}`:
a later entry with the same key overwrites an earlier one, so the lookup
returns the last matching batch. -/
def dict_get (batches : List DataBatch) (i : String) : Option DataBatch :=
  (batches.filter (fun b => b.batch_id == i)).getLast?

/-- Mirrors `missing_batches` (higgs_manager.py lines 217-256): the set of
expected ids minus the set of retrieved ids; `none` when the difference is
empty, otherwise the missing batches looked up in the expected-id dict.
Python set iteration order is unspecified, so the missing ids are listed
in a canonical deterministic order (deduplicated expected ids, filtered);
the claims about this function only concern the resulting id sets. -/
def missing_batches (expected retrieved : List DataBatch) : Option (List DataBatch) :=
  let missingIds := ((expected.map (fun b => b.batch_id)).dedup).filter
      (fun i => !((retrieved.map (fun b => b.batch_id)).contains i))
  if missingIds = [] then none
  else some (missingIds.filterMap (fun i => dict_get expected i))

/-- Models awkward.concatenate as used in `group_batches`: it raises on an
empty input list and on a `None` entry (modelled as `none`), and otherwise
returns the concatenation of the arrays (arrays modelled as lists). -/
def seqOptions : List (Option (List ℕ)) → Option (List (List ℕ))
  | [] => some []
  | x :: xs =>
    match x, seqOptions xs with
    | some a, some ys => some (a :: ys)
    | _, _ => none

/-- Modelled from the awkward library: `ak.concatenate` fails (raises) when
given an empty list or a list containing `None`. -/
def ak_concatenate (arrays : List (Option (List ℕ))) : Option (List ℕ) :=
  if arrays = [] then none else (seqOptions arrays).map List.flatten

/-- The batches belonging to one sample, as collected by the inner loop of
`group_batches` (higgs_manager.py lines 205-209). -/
def sample_batches (batches : List DataBatch) (s : String) : List DataBatch :=
  batches.filter (fun b => b.sample == s)

/-- The concatenated processed data of one sample, assuming every batch of
the sample carries processed data (absent data is replaced by `[]`; the
theorems only use this under a hypothesis that rules absence out). -/
def groupData (batches : List DataBatch) (s : String) : List ℕ :=
  ((sample_batches batches s).map (fun b => b.processed_data.getD [])).flatten

/-- Mirrors `group_batches` (higgs_manager.py lines 177-214): for each
sample, collect the processed data of its batches and concatenate them
with `ak.concatenate`; an exception anywhere aborts the whole grouping
(`none`). -/
def group_batches (batches : List DataBatch) : List String → Option (List (String × List ℕ))
  | [] => some []
  | s :: rest =>
    match ak_concatenate ((sample_batches batches s).map (fun b => b.processed_data)),
        group_batches batches rest with
    | some d, some acc => some ((s, d) :: acc)
    | _, _ => none

/-- Outcome of one coordinator run (`main` in higgs_manager.py).  Fatal
paths carry which diagnostic was printed before `sys.exit(1)`;
`crashTypeError` is the uncaught TypeError raised at line 75 when `main`
iterates the function object `missing_batches` instead of the list
`missing_data_batches`; `crashConcat` is the uncaught exception raised by
`ak.concatenate` inside `group_batches`; `emptyGroup s` is the
`sys.exit(1)` after printing the no-data diagnostic naming sample `s`;
`success` carries the samples for which a low-population warning was
printed before the success message. -/
inductive RunResult where
  | exitConn : RunResult
  | exitNoResults : RunResult
  | exitMissing : RunResult
  | crashTypeError : RunResult
  | crashConcat : RunResult
  | emptyGroup : String → RunResult
  | success : List String → RunResult
deriving DecidableEq, Repr

/-- Process exit code of each outcome: `sys.exit(1)` on every explicit
failure path, exit code 1 for an uncaught Python exception, and 0 when
`main` returns normally. -/
def exitCode : RunResult → ℕ
  | RunResult.success _ => 0
  | _ => 1

/-- The per-sample validation loop of `main` (higgs_manager.py lines
85-93) applied to the grouped data, followed by the success path: exit
with the no-data diagnostic at the first sample whose collection is
empty, otherwise warn for every sample with fewer than 50 events. -/
def check_samples (dict : List (String × List ℕ)) : RunResult :=
  match dict.find? (fun p => p.2.length == 0) with
  | some p => RunResult.emptyGroup p.1
  | none => RunResult.success ((dict.filter (fun p => p.2.length < 50)).map Prod.fst)

/-- The aggregation stage of `main` (higgs_manager.py lines 81-99):
grouping followed by the per-sample validation. -/
def aggregate_stage (batches : List DataBatch) (samples : List String) : RunResult :=
  match group_batches batches samples with
  | none => RunResult.crashConcat
  | some dict => check_samples dict

/-- Control-flow skeleton of `main` (higgs_manager.py lines 21-99) with
the I/O boundaries as inputs: `conn_ok` is whether `comms.open_connection`
succeeded, `batches` the output of `data_batcher`, `retrieved` the output
of `retrieve_batches`, `samples` the keys of `config.SAMPLES`. -/
def main_run (conn_ok : Bool) (batches retrieved : List DataBatch)
    (samples : List String) : RunResult :=
  if conn_ok = false then RunResult.exitConn
  else if retrieved.length = 0 then RunResult.exitNoResults
  else
    match missing_batches batches retrieved with
    | none => aggregate_stage retrieved samples
    | some ms =>
      if batches.length / 2 < ms.length then RunResult.exitMissing
      else RunResult.crashTypeError

/-- Result of `retrieve_batches`: the accumulated batches, the number of
polls issued against the queue, and the wall-clock time elapsed at return
(every completed sleep contributes `wait_time`; polls are instantaneous). -/
structure CollectResult where
  batches : List DataBatch
  polls : ℕ
  elapsed : ℕ
deriving DecidableEq, Repr

/-- The polling loop of `retrieve_batches` (higgs_manager.py lines
299-322), step-indexed: iteration `i` polls `trace i`; time is discrete
with each sleep advancing the clock by `wait_time`, so the elapsed time at
the top of iteration `i` is `i * wait_time`.  The loop exits at the top
when the accumulator reaches `num_batches`, and after the poll when the
elapsed time exceeds `terminate_time`; the sleep and the time check happen
on every iteration, whether or not the poll returned a message.  `fuel`
only bounds the recursion; it is chosen large enough in
`retrieve_batches` that it is never exhausted when `0 < wait_time`. -/
def retrieveLoop (trace : ℕ → Option DataBatch) (num_batches wait_time terminate_time : ℕ) :
    ℕ → ℕ → List DataBatch → CollectResult
  | 0, i, acc => ⟨acc, i, i * wait_time⟩
  | fuel + 1, i, acc =>
    if acc.length = num_batches then ⟨acc, i, i * wait_time⟩
    else
      let acc2 := match trace i with
        | some b => acc ++ [b]
        | none => acc
      if terminate_time < i * wait_time then ⟨acc2, i + 1, i * wait_time⟩
      else retrieveLoop trace num_batches wait_time terminate_time fuel (i + 1) acc2

/-- Mirrors `retrieve_batches` (higgs_manager.py lines 259-322) over a
transport trace: poll the results queue until `num_batches` messages are
accumulated or the termination time is exceeded. -/
def retrieve_batches (trace : ℕ → Option DataBatch)
    (num_batches wait_time terminate_time : ℕ) : CollectResult :=
  retrieveLoop trace num_batches wait_time terminate_time
    (terminate_time / wait_time + num_batches + 2) 0 []

/-- A value stored in the pickled state of a DataBatch.  `pickle.dumps`
serialises the instance attribute dictionary; each attribute is a string,
a float (modelled as a rational), an int, `None`, or a processed-data
array. -/
inductive PyVal where
  | pstr : String → PyVal
  | prat : ℚ → PyVal
  | pint : ℤ → PyVal
  | pnone : PyVal
  | parr : List ℕ → PyVal
deriving DecidableEq, Repr

/-- Models `pickle.dumps` on a DataBatch (comms.send_data line 203): a
self-describing tagged map from attribute name to attribute value,
including the absent/present state of `processed_data`. -/
def pickle_dumps (b : DataBatch) : List (String × PyVal) :=
  [("batch_id", PyVal.pstr b.batch_id),
   ("sample", PyVal.pstr b.sample),
   ("subsample", PyVal.pstr b.subsample),
   ("sample_type", PyVal.pstr b.sample_type),
   ("path", PyVal.pstr b.path),
   ("fraction", PyVal.prat b.fraction),
   ("start_index", PyVal.pint b.start_index),
   ("stop_index", PyVal.pint b.stop_index),
   ("processed_data",
     match b.processed_data with
     | none => PyVal.pnone
     | some d => PyVal.parr d)]

/-- Models `pickle.loads` on a serialised DataBatch (higgs_worker.py line
117, higgs_manager.py line 308): reconstruct the object from its attribute
map, failing on a missing or ill-typed attribute. -/
def pickle_loads (w : List (String × PyVal)) : Option DataBatch :=
  match w.lookup "batch_id", w.lookup "sample", w.lookup "subsample",
      w.lookup "sample_type", w.lookup "path", w.lookup "fraction",
      w.lookup "start_index", w.lookup "stop_index", w.lookup "processed_data" with
  | some (PyVal.pstr a), some (PyVal.pstr s), some (PyVal.pstr ss),
      some (PyVal.pstr st), some (PyVal.pstr p), some (PyVal.prat fr),
      some (PyVal.pint i1), some (PyVal.pint i2), some pd =>
    match pd with
    | PyVal.pnone => some ⟨a, s, ss, st, p, fr, i1, i2, none⟩
    | PyVal.parr d => some ⟨a, s, ss, st, p, fr, i1, i2, some d⟩
    | _ => none
  | _, _, _, _, _, _, _, _, _ => none

/-- An observable action of the worker loop: publishing a batch to a
queue, acknowledging or negatively acknowledging a task message by
delivery tag, or printing a log line. -/
inductive WAction where
  | publish : String → DataBatch → WAction
  | ack : ℕ → WAction
  | nack : ℕ → Bool → WAction
  | log : String → WAction
deriving DecidableEq, Repr

/-- The try/except body of the worker loop (higgs_worker.py lines 54-70)
for one retrieved task: `proc` stands for `process_data` (the domain
transformation together with `send_data`, whose failure is also caught);
on success the enriched batch is published to the results queue and the
task is acknowledged; on an exception with message `e` the worker prints
the failure log line and negatively acknowledges with requeue. -/
def worker_step (proc : DataBatch → Except String DataBatch) (tag : ℕ)
    (batch : DataBatch) : List WAction :=
  match proc batch with
  | Except.ok pb => [WAction.publish "results" pb, WAction.ack tag]
  | Except.error e =>
      [WAction.log ("error: failed to process batch " ++ e), WAction.nack tag true]

/-- Outcome of one iteration of the worker loop (higgs_worker.py lines
40-70): a clean exit with code 0 when no task could be fetched, otherwise
the iteration actions followed by the next loop iteration. -/
inductive WorkerIter where
  | exitNoTasks : WorkerIter
  | continueLoop : List WAction → WorkerIter
deriving DecidableEq, Repr

/-- One iteration of the worker loop: `fetch` is the result of
`retrieve_batch` (delivery tag and batch, or nothing after its retries are
exhausted). -/
def worker_iteration (fetch : Option (ℕ × DataBatch))
    (proc : DataBatch → Except String DataBatch) : WorkerIter :=
  match fetch with
  | none => WorkerIter.exitNoTasks
  | some (tag, batch) => WorkerIter.continueLoop (worker_step proc tag batch)

lemma pyRound_nonneg {q : ℚ} (hq : 0 ≤ q) : 0 ≤ pyRound q := by
  have h0 : (0 : ℤ) ≤ ⌊q⌋ := Int.floor_nonneg.mpr hq
  unfold pyRound
  split_ifs <;> omega

lemma pyRangeFrom_eq_nil {stop step start : ℕ} (h : stop ≤ start) :
    pyRangeFrom stop step start = [] := by
  rw [pyRangeFrom]
  simp only [dif_neg (by omega : ¬(0 < step ∧ start < stop))]

lemma pyRangeFrom_eq_cons {stop step start : ℕ} (hstep : 0 < step) (h : start < stop) :
    pyRangeFrom stop step start = start :: pyRangeFrom stop step (start + step) := by
  rw [pyRangeFrom]
  simp only [dif_pos (And.intro hstep h)]

lemma pyRangeFrom_length (step : ℕ) (hstep : 0 < step) :
    ∀ stop start, (pyRangeFrom stop step start).length = (stop - start + step - 1) / step := by
  intro stop
  suffices h : ∀ d start, stop - start = d →
      (pyRangeFrom stop step start).length = (stop - start + step - 1) / step by
    intro start
    exact h _ start rfl
  intro d
  induction d using Nat.strong_induction_on with
  | _ d ih =>
    intro start hd
    by_cases h : start < stop
    · rw [pyRangeFrom_eq_cons hstep h, List.length_cons,
        ih (stop - (start + step)) (by omega) (start + step) rfl]
      have e2 : stop - start + step - 1 = stop - start - 1 + step := by omega
      rw [e2, Nat.add_div_right _ hstep]
      by_cases h2 : stop ≤ start + step
      · have e1 : stop - (start + step) + step - 1 = step - 1 := by omega
        rw [e1, Nat.div_eq_of_lt (by omega), Nat.div_eq_of_lt (by omega)]
      · have e1 : stop - (start + step) + step - 1 = stop - start - 1 := by omega
        rw [e1]
    · rw [pyRangeFrom_eq_nil (by omega)]
      have e1 : stop - start + step - 1 = step - 1 := by omega
      rw [List.length_nil, e1, Nat.div_eq_of_lt (by omega)]

lemma pyRangeFrom_bounds (step : ℕ) :
    ∀ stop start s, s ∈ pyRangeFrom stop step start → start ≤ s ∧ s < stop := by
  intro stop
  suffices h : ∀ d start, stop - start = d →
      ∀ s, s ∈ pyRangeFrom stop step start → start ≤ s ∧ s < stop by
    intro start
    exact h _ start rfl
  intro d
  induction d using Nat.strong_induction_on with
  | _ d ih =>
    intro start hd s hs
    by_cases hstep : 0 < step
    · by_cases h : start < stop
      · rw [pyRangeFrom_eq_cons hstep h, List.mem_cons] at hs
        rcases hs with rfl | hs
        · omega
        · have := ih (stop - (start + step)) (by omega) (start + step) rfl s hs
          omega
      · rw [pyRangeFrom_eq_nil (by omega)] at hs
        simp at hs
    · rw [pyRangeFrom] at hs
      simp only [dif_neg (by omega : ¬(0 < step ∧ start < stop))] at hs
      simp at hs

lemma pyRangeFrom_sorted (step : ℕ) (hstep : 0 < step) :
    ∀ stop start, List.Pairwise (fun a b => a + step ≤ b) (pyRangeFrom stop step start) := by
  intro stop
  suffices h : ∀ d start, stop - start = d →
      List.Pairwise (fun a b => a + step ≤ b) (pyRangeFrom stop step start) by
    intro start
    exact h _ start rfl
  intro d
  induction d using Nat.strong_induction_on with
  | _ d ih =>
    intro start hd
    by_cases h : start < stop
    · rw [pyRangeFrom_eq_cons hstep h]
      refine List.Pairwise.cons ?_ (ih (stop - (start + step)) (by omega) (start + step) rfl)
      intro b hb
      have := pyRangeFrom_bounds step stop (start + step) b hb
      omega
    · rw [pyRangeFrom_eq_nil (by omega)]
      exact List.Pairwise.nil

lemma pyRangeFrom_cover (step : ℕ) (hstep : 0 < step) :
    ∀ stop start x, start ≤ x → x < stop →
      ∃ s ∈ pyRangeFrom stop step start, s ≤ x ∧ x < min (s + step) stop := by
  intro stop
  suffices h : ∀ d start, stop - start = d → ∀ x, start ≤ x → x < stop →
      ∃ s ∈ pyRangeFrom stop step start, s ≤ x ∧ x < min (s + step) stop by
    intro start
    exact h _ start rfl
  intro d
  induction d using Nat.strong_induction_on with
  | _ d ih =>
    intro start hd x hx1 hx2
    have h : start < stop := by omega
    rw [pyRangeFrom_eq_cons hstep h]
    by_cases hx3 : x < start + step
    · exact ⟨start, List.mem_cons_self _ _, hx1, by omega⟩
    · obtain ⟨s, hs, hsx⟩ :=
        ih (stop - (start + step)) (by omega) (start + step) rfl x (by omega) hx2
      exact ⟨s, List.mem_cons_of_mem _ hs, hsx⟩
/-- C1: for every total record count T > 0, sampling fraction f with
0 < f <= 1, and batch size B > 0, the per-subgroup partitioning of
`data_batcher` emits exactly ceil(N/B) units with N = min(T, round(T*f)),
whose half-open ranges are non-empty, pairwise disjoint, contained in
[0, N), and whose union equals [0, N) exactly. -/
theorem C1_partitioner_ranges (ids : ℕ → String) (sample subsample stype path : String)
    (T : ℕ) (f : ℚ) (B : ℕ) (hT : 0 < T) (hf0 : 0 < f) (_hf1 : f ≤ 1) (hB : 0 < B) :
    (subgroup_batches ids sample subsample stype path T f B).length
        = ((min (T : ℤ) (pyRound ((T : ℚ) * f))).toNat + B - 1) / B
    ∧ (∀ u ∈ subgroup_batches ids sample subsample stype path T f B,
        0 ≤ u.start_index ∧ u.start_index < u.stop_index
          ∧ u.stop_index ≤ min (T : ℤ) (pyRound ((T : ℚ) * f)))
    ∧ List.Pairwise (fun u v => ∀ x : ℤ,
        ¬(u.start_index ≤ x ∧ x < u.stop_index ∧ v.start_index ≤ x ∧ x < v.stop_index))
        (subgroup_batches ids sample subsample stype path T f B)
    ∧ (∀ x : ℤ, (0 ≤ x ∧ x < min (T : ℤ) (pyRound ((T : ℚ) * f)))
        ↔ ∃ u ∈ subgroup_batches ids sample subsample stype path T f B,
            u.start_index ≤ x ∧ x < u.stop_index) := by
  have hq : (0 : ℚ) ≤ (T : ℚ) * f := by positivity
  set N : ℤ := min (T : ℤ) (pyRound ((T : ℚ) * f)) with hNdef
  have hN : 0 ≤ N := le_min (by exact_mod_cast Nat.zero_le T) (pyRound_nonneg hq)
  have hMN : ((N.toNat : ℤ)) = N := Int.toNat_of_nonneg hN
  set M : ℕ := N.toNat with hMdef
  have hunits : subgroup_batches ids sample subsample stype path T f B
      = (pyRangeFrom M B 0).map (fun (start : ℕ) =>
          { batch_id := ids start
            sample := sample
            subsample := subsample
            sample_type := stype
            path := path
            fraction := (((min ((start : ℤ) + (B : ℤ)) N : ℤ) : ℚ) - (start : ℚ)) / (N : ℚ)
            start_index := (start : ℤ)
            stop_index := min ((start : ℤ) + (B : ℤ)) N
            processed_data := none }) := by
    simp only [subgroup_batches, hNdef, hMdef]
  refine ⟨?_, ?_, ?_, ?_⟩
  · rw [hunits, List.length_map, pyRangeFrom_length B hB M 0, Nat.sub_zero]
  · intro u hu
    rw [hunits, List.mem_map] at hu
    obtain ⟨s, hs, rfl⟩ := hu
    have hb := pyRangeFrom_bounds B M 0 s hs
    simp only
    omega
  · rw [hunits]
    refine List.Pairwise.map _ ?_ (pyRangeFrom_sorted B hB M 0)
    intro a b hab x
    simp only
    omega
  · intro x
    constructor
    · rintro ⟨hx0, hxN⟩
      have hxM : x.toNat < M := by omega
      obtain ⟨s, hs, hsx1, hsx2⟩ := pyRangeFrom_cover B hB M 0 x.toNat (Nat.zero_le _) hxM
      refine ⟨_, by rw [hunits]; exact List.mem_map_of_mem _ hs, ?_, ?_⟩
      · simp only
        omega
      · simp only
        omega
    · rintro ⟨u, hu, hux1, hux2⟩
      rw [hunits, List.mem_map] at hu
      obtain ⟨s, hs, rfl⟩ := hu
      have hb := pyRangeFrom_bounds B M 0 s hs
      simp only at hux1 hux2
      omega

/-- C1 witness: the partitioner theorem applied to a concrete subgroup
with 5 records, fraction one half and batch size 2. -/
theorem C1_witness :
    (subgroup_batches (fun n => toString n) "s" "ss" "t" "p" 5 (1/2) 2).length
      = ((min ((5 : ℕ) : ℤ) (pyRound (((5 : ℕ) : ℚ) * (1/2)))).toNat + 2 - 1) / 2 :=
  (C1_partitioner_ranges (fun n => toString n) "s" "ss" "t" "p" 5 (1/2) 2
    (by decide) (by norm_num) (by norm_num) (by decide)).1

/-- Concrete dispatched batch used in counterexamples. -/
def batchA : DataBatch :=
  { batch_id := "a", sample := "data", subsample := "data_A", sample_type := "measured",
    path := "p", fraction := 1, start_index := 0, stop_index := 1, processed_data := none }

/-- Concrete dispatched batch with a second id. -/
def batchB : DataBatch := { batchA with batch_id := "b" }

/-- Concrete retrieved copy of `batchA` with its result payload present. -/
def batchA_done : DataBatch := { batchA with processed_data := some [1, 2] }

lemma dict_get_id {E : List DataBatch} {i : String} {b : DataBatch}
    (h : dict_get E i = some b) : b.batch_id = i := by
  have hb : b ∈ (E.filter (fun b => b.batch_id == i)).getLast? := Option.mem_def.mpr h
  obtain ⟨hne, heq⟩ := List.mem_getLast?_eq_getLast hb
  have hm : b ∈ E.filter (fun b => b.batch_id == i) := by
    rw [heq]
    exact List.getLast_mem hne
  have := (List.mem_filter.mp hm).2
  simpa using this

lemma dict_get_isSome {E : List DataBatch} {i : String}
    (h : i ∈ E.map (fun b => b.batch_id)) : ∃ b, dict_get E i = some b ∧ b.batch_id = i := by
  obtain ⟨b0, hb0, hid⟩ := List.mem_map.mp h
  have hmem : b0 ∈ E.filter (fun b => b.batch_id == i) :=
    List.mem_filter.mpr ⟨hb0, by simpa using hid⟩
  rcases hlast : (E.filter (fun b => b.batch_id == i)).getLast? with _ | b
  · rw [List.getLast?_eq_none_iff] at hlast
    rw [hlast] at hmem
    simp at hmem
  · exact ⟨b, hlast, dict_get_id hlast⟩

/-- C3 counterexample: with no expected units and one retrieved unit the
reconciler returns `none` although the id set of R differs from the id
set of E, so returning `none` is not equivalent to id-set equality. -/
theorem C3_counterexample :
    missing_batches [] [batchA] = none ∧ idSet [batchA] ≠ idSet [] := by decide

/-- C3 amended: `missing_batches` returns `none` iff the expected id set
is a subset of the retrieved id set (not iff the two id sets are equal);
otherwise the id set of the returned units equals ids(E) minus ids(R)
exactly. -/
theorem C3_reconciler_amended (E R : List DataBatch) :
    (missing_batches E R = none ↔ idSet E ⊆ idSet R)
    ∧ (∀ ms, missing_batches E R = some ms → idSet ms = idSet E \ idSet R) := by
  have hmem : ∀ x, x ∈ ((E.map (fun b => b.batch_id)).dedup).filter
      (fun i => !((R.map (fun b => b.batch_id)).contains i))
      ↔ x ∈ idSet E ∧ x ∉ idSet R := by
    intro x
    simp [idSet, List.mem_filter, List.mem_dedup]
  set mi : List String := ((E.map (fun b => b.batch_id)).dedup).filter
      (fun i => !((R.map (fun b => b.batch_id)).contains i)) with hmi
  have hrun : missing_batches E R
      = if mi = [] then none else some (mi.filterMap (fun i => dict_get E i)) := by
    rw [hmi]
    rfl
  constructor
  · rw [hrun]
    constructor
    · intro h
      by_cases hnil : mi = []
      · intro x hx
        by_contra hxr
        have hxm : x ∈ mi := (hmem x).mpr ⟨hx, hxr⟩
        rw [hnil] at hxm
        exact absurd hxm (List.not_mem_nil x)
      · rw [if_neg hnil] at h
        exact absurd h (by simp)
    · intro hsub
      have hnil : mi = [] := by
        rw [List.eq_nil_iff_forall_not_mem]
        intro x hx
        have hx2 := (hmem x).mp hx
        exact hx2.2 (hsub hx2.1)
      rw [if_pos hnil]
  · intro ms hms
    rw [hrun] at hms
    by_cases hnil : mi = []
    · rw [if_pos hnil] at hms
      exact absurd hms (by simp)
    · rw [if_neg hnil] at hms
      have hms2 : ms = mi.filterMap (fun i => dict_get E i) := by
        have := hms.symm
        injection this
      subst hms2
      ext x
      rw [Finset.mem_sdiff, ← hmem x]
      constructor
      · intro hx
        obtain ⟨b, hb, hbx⟩ := List.mem_map.mp (List.mem_toFinset.mp hx)
        obtain ⟨i, hi, hget⟩ := List.mem_filterMap.mp hb
        rw [← hbx, dict_get_id hget]
        exact hi
      · intro hx
        have hxE : x ∈ E.map (fun b => b.batch_id) := by
          have hx2 := ((hmem x).mp hx).1
          simpa [idSet] using hx2
        obtain ⟨b, hget, hbid⟩ := dict_get_isSome hxE
        simp only [idSet, List.mem_toFinset, List.mem_map]
        exact ⟨b, List.mem_filterMap.mpr ⟨x, hx, hget⟩, hbid⟩

/-- C3 witness: the amended theorem applied to a concrete run with one
retrieved and one missing unit. -/
theorem C3_witness : idSet [batchB] = idSet [batchA, batchB] \ idSet [batchA_done] :=
  (C3_reconciler_amended [batchA, batchB] [batchA_done]).2 [batchB] (by decide)

lemma mul_le_of_le_div {i wait tterm : ℕ} (h : i ≤ tterm / wait) : i * wait ≤ tterm :=
  calc i * wait ≤ tterm / wait * wait := Nat.mul_le_mul_right _ h
  _ ≤ tterm := Nat.div_mul_le_self _ _

lemma lt_div_succ_mul {wait tterm : ℕ} (hw : 0 < wait) : tterm < (tterm / wait + 1) * wait := by
  have hd := Nat.div_add_mod tterm wait
  have hm : tterm % wait < wait := Nat.mod_lt _ hw
  calc tterm = wait * (tterm / wait) + tterm % wait := hd.symm
  _ < wait * (tterm / wait) + wait := by omega
  _ = (tterm / wait + 1) * wait := by ring

lemma div_succ_mul_le {wait tterm : ℕ} : (tterm / wait + 1) * wait ≤ tterm + wait := by
  have h := Nat.div_mul_le_self tterm wait
  calc (tterm / wait + 1) * wait = tterm / wait * wait + wait := by ring
  _ ≤ tterm + wait := by omega

/-- With an expected count of zero the loop condition fails immediately. -/
lemma retrieve_batches_zero (trace : ℕ → Option DataBatch) (wait_time terminate_time : ℕ) :
    retrieve_batches trace 0 wait_time terminate_time = ⟨[], 0, 0⟩ := by
  show retrieveLoop trace 0 wait_time terminate_time
      ((terminate_time / wait_time + 0 + 1) + 1) 0 [] = _
  rw [retrieveLoop]
  simp

/-- If the transport never yields a message, the loop polls until the first
iteration whose elapsed time exceeds the deadline and returns empty. -/
lemma retrieveLoop_no_messages (num wait tterm : ℕ) (hw : 0 < wait) (hnum : num ≠ 0) :
    ∀ fuel i, i ≤ tterm / wait + 1 → tterm / wait + 2 ≤ i + fuel →
      retrieveLoop (fun _ => none) num wait tterm fuel i []
        = ⟨[], tterm / wait + 2, (tterm / wait + 1) * wait⟩ := by
  intro fuel
  induction fuel with
  | zero =>
    intro i h1 h2
    omega
  | succ fuel ih =>
    intro i h1 h2
    rw [retrieveLoop]
    rw [if_neg (show ¬(([] : List DataBatch).length = num) by simp; omega)]
    by_cases hi : tterm < i * wait
    · rw [if_pos hi]
      have hiK : i = tterm / wait + 1 := by
        by_contra hne
        have hle : i ≤ tterm / wait := by omega
        exact absurd hi (by simpa using Nat.not_lt.mpr (mul_le_of_le_div hle))
      subst hiK
      rfl
    · rw [if_neg hi]
      have hlt : i ≤ tterm / wait := by
        by_contra hgt
        have : tterm / wait + 1 ≤ i := by omega
        exact hi (lt_of_lt_of_le (lt_div_succ_mul hw) (Nat.mul_le_mul_right _ this))
      exact ih (i + 1) (by omega) (by omega)

/-- If the transport yields a message on every poll and the deadline does
not fire before poll number num-1, the loop accumulates exactly the first
num messages; it exits either at the deadline check of iteration num-1 or
at the loop top of iteration num. -/
lemma retrieveLoop_all_messages (f : ℕ → DataBatch) (num wait tterm : ℕ)
    (hpre : ∀ j, j + 2 ≤ num → j * wait ≤ tterm) :
    ∀ fuel i, i < num → num + 1 ≤ i + fuel →
      (retrieveLoop (fun n => some (f n)) num wait tterm fuel i ((List.range i).map f)).batches
          = (List.range num).map f
      ∧ (num - 1) * wait
          ≤ (retrieveLoop (fun n => some (f n)) num wait tterm fuel i
              ((List.range i).map f)).elapsed
      ∧ (retrieveLoop (fun n => some (f n)) num wait tterm fuel i
              ((List.range i).map f)).elapsed ≤ num * wait := by
  intro fuel
  induction fuel with
  | zero =>
    intro i h1 h2
    omega
  | succ fuel ih =>
    intro i h1 h2
    have hlen : ((List.range i).map f).length = i := by simp
    have hacc2 : ((List.range i).map f) ++ [f i] = (List.range (i + 1)).map f := by
      rw [List.range_succ, List.map_append]
      rfl
    rw [retrieveLoop]
    rw [if_neg (show ¬(((List.range i).map f).length = num) by omega)]
    simp only [hacc2]
    by_cases hi : tterm < i * wait
    · rw [if_pos hi]
      have hieq : i + 1 = num := by
        by_contra hne
        have : i + 2 ≤ num := by omega
        exact absurd (hpre i this) (by omega)
      rw [hieq]
      refine ⟨rfl, ?_, ?_⟩
      · show (num - 1) * wait ≤ i * wait
        exact Nat.mul_le_mul_right _ (by omega)
      · show i * wait ≤ num * wait
        exact Nat.mul_le_mul_right _ (by omega)
    · rw [if_neg hi]
      by_cases hnext : i + 1 < num
      · exact ih (i + 1) hnext (by omega)
      · have hieq : i + 1 = num := by omega
        rcases fuel with _ | g
        · omega
        · rw [retrieveLoop]
          rw [if_pos (show ((List.range (i + 1)).map f).length = num by simp [hieq])]
          refine ⟨by rw [hieq], ?_, ?_⟩
          · show (num - 1) * wait ≤ (i + 1) * wait
            exact Nat.mul_le_mul_right _ (by omega)
          · show (i + 1) * wait ≤ num * wait
            exact Nat.mul_le_mul_right _ (by omega)

/-- Transport trace for the C4 counterexample: exactly four distinct
messages are available from the start, none afterwards. -/
def trace4 : ℕ → Option DataBatch := fun i =>
  if i < 4 then some { batchA with batch_id := toString i } else none

/-- C4 counterexample: with pollInterval 1 and deadline 1, a transport
holding exactly 4 distinct messages from before the deadline does not make
the collector return all 4 before the deadline: because the collector
sleeps and checks the deadline after every poll (also ones that returned a
message), it stops with 3 messages at elapsed time 2, past the deadline. -/
theorem C4_counterexample :
    (retrieve_batches trace4 4 1 1).batches.length = 3
    ∧ (retrieve_batches trace4 4 1 1).elapsed = 2 := by decide

/-- C4 amended: the collector sleeps for pollInterval and checks the
deadline after every poll, whether or not the poll returned a message.
Consequently, for a transport yielding a message on every poll, all
expectedCount units are returned provided the deadline does not fire
before poll expectedCount-1 (that is, (k-2)*pollInterval <= deadline),
and the collector terminates at an elapsed time between
(k-1)*pollInterval and k*pollInterval, which may exceed the deadline;
for a transport that never yields a message the collector returns an
empty list at an elapsed time greater than the deadline but at most the
deadline plus one pollInterval. -/
theorem C4_collector_amended (f : ℕ → DataBatch) (num wait_time terminate_time : ℕ)
    (hw : 0 < wait_time) :
    ((∀ j, j + 2 ≤ num → j * wait_time ≤ terminate_time) →
        (retrieve_batches (fun n => some (f n)) num wait_time terminate_time).batches
            = (List.range num).map f
        ∧ (num - 1) * wait_time
            ≤ (retrieve_batches (fun n => some (f n)) num wait_time terminate_time).elapsed
        ∧ (retrieve_batches (fun n => some (f n)) num wait_time terminate_time).elapsed
            ≤ num * wait_time)
    ∧ (0 < num →
        (retrieve_batches (fun _ => none) num wait_time terminate_time).batches = []
        ∧ terminate_time
            < (retrieve_batches (fun _ => none) num wait_time terminate_time).elapsed
        ∧ (retrieve_batches (fun _ => none) num wait_time terminate_time).elapsed
            ≤ terminate_time + wait_time) := by
  constructor
  · intro hpre
    rcases Nat.eq_zero_or_pos num with hnum | hnum
    · subst hnum
      rw [retrieve_batches_zero]
      refine ⟨by simp, by simp, by simp⟩
    · have h0 : (([] : List DataBatch)) = (List.range 0).map f := rfl
      show ((retrieveLoop (fun n => some (f n)) num wait_time terminate_time
          (terminate_time / wait_time + num + 2) 0 []).batches = _) ∧ _
      rw [h0]
      exact retrieveLoop_all_messages f num wait_time terminate_time hpre
        (terminate_time / wait_time + num + 2) 0 hnum
        (by have hq := Nat.zero_le (terminate_time / wait_time)
            omega)
  · intro hnum
    have hrun : retrieve_batches (fun _ => none) num wait_time terminate_time
        = ⟨[], terminate_time / wait_time + 2, (terminate_time / wait_time + 1) * wait_time⟩ :=
      retrieveLoop_no_messages num wait_time terminate_time hw (by omega)
        (terminate_time / wait_time + num + 2) 0 (Nat.zero_le _)
        (by have hq := Nat.zero_le (terminate_time / wait_time)
            omega)
    rw [hrun]
    exact ⟨rfl, lt_div_succ_mul hw, div_succ_mul_le⟩

/-- C4 witness: the amended theorem at expectedCount 2, pollInterval 1,
deadline 5, for an always-yielding trace and a never-yielding trace. -/
theorem C4_witness :
    (retrieve_batches (fun n => some { batchA with batch_id := toString n }) 2 1 5).batches
      = (List.range 2).map (fun n => { batchA with batch_id := toString n })
    ∧ (retrieve_batches (fun _ => none) 2 1 5).batches = [] := by
  have h := C4_collector_amended (fun n => { batchA with batch_id := toString n }) 2 1 5
    (by decide)
  exact ⟨(h.1 (by intro j hj; omega)).1, (h.2 (by decide)).1⟩

/-- C9: when the expected batch count is zero, the collector returns an
empty list immediately: no poll is issued and no time elapses, so it does
not wait for the deadline. -/
theorem C9_collector_zero_expected (trace : ℕ → Option DataBatch)
    (wait_time terminate_time : ℕ) :
    retrieve_batches trace 0 wait_time terminate_time = ⟨[], 0, 0⟩ :=
  retrieve_batches_zero trace wait_time terminate_time

lemma retrieveLoop_length_le (trace : ℕ → Option DataBatch) (num wait tterm : ℕ) :
    ∀ fuel i acc, acc.length ≤ num →
      (retrieveLoop trace num wait tterm fuel i acc).batches.length ≤ num := by
  intro fuel
  induction fuel with
  | zero =>
    intro i acc h
    exact h
  | succ fuel ih =>
    intro i acc h
    rw [retrieveLoop]
    by_cases hlen : acc.length = num
    · rw [if_pos hlen]
      exact h
    · rw [if_neg hlen]
      rcases htr : trace i with _ | b
      · simp only [htr]
        by_cases hi : tterm < i * wait
        · rw [if_pos hi]
          exact h
        · rw [if_neg hi]
          exact ih (i + 1) acc h
      · simp only [htr]
        have h2 : (acc ++ [b]).length ≤ num := by
          rw [List.length_append]
          simp only [List.length_singleton]
          omega
        by_cases hi : tterm < i * wait
        · rw [if_pos hi]
          exact h2
        · rw [if_neg hi]
          exact ih (i + 1) (acc ++ [b]) h2

/-- C10: the accumulated list in the collector polling loop never exceeds
the expected count, so the returned list has at most expectedCount units
even when the results queue holds duplicate or extra messages. -/
theorem C10_collector_bounded (trace : ℕ → Option DataBatch) (num wait_time terminate_time : ℕ) :
    (∀ fuel i acc, acc.length ≤ num →
        (retrieveLoop trace num wait_time terminate_time fuel i acc).batches.length ≤ num)
    ∧ (retrieve_batches trace num wait_time terminate_time).batches.length ≤ num :=
  ⟨retrieveLoop_length_le trace num wait_time terminate_time,
   retrieveLoop_length_le trace num wait_time terminate_time _ 0 [] (Nat.zero_le num)⟩

/-- C10 witness: the invariant applied to a concrete loop state and to a
concrete collector run with duplicate messages available. -/
theorem C10_witness :
    (retrieveLoop (fun _ => some batchA) 1 1 0 2 0 []).batches.length ≤ 1
    ∧ (retrieve_batches (fun _ => some batchA) 1 1 0).batches.length ≤ 1 :=
  ⟨(C10_collector_bounded (fun _ => some batchA) 1 1 0).1 2 0 [] (by decide),
   (C10_collector_bounded (fun _ => some batchA) 1 1 0).2⟩

lemma seqOptions_all_some (l : List (Option (List ℕ))) (h : ∀ x ∈ l, x.isSome) :
    seqOptions l = some (l.map (fun x => x.getD [])) := by
  induction l with
  | nil => rfl
  | cons x xs ih =>
    rcases x with _ | a
    · exact absurd (h none (List.mem_cons_self _ _)) (by simp)
    · show (match some a, seqOptions xs with
        | some a, some ys => some (a :: ys)
        | _, _ => none) = _
      rw [ih (fun y hy => h y (List.mem_cons_of_mem _ hy))]
      rfl

lemma ak_concatenate_all_some (l : List (Option (List ℕ))) (hne : l ≠ [])
    (h : ∀ x ∈ l, x.isSome) :
    ak_concatenate l = some ((l.map (fun x => x.getD [])).flatten) := by
  rw [ak_concatenate, if_neg hne, seqOptions_all_some l h]
  rfl

lemma group_batches_none (retrieved : List DataBatch) (samples : List String)
    (h : ∃ s ∈ samples, sample_batches retrieved s = []) :
    group_batches retrieved samples = none := by
  induction samples with
  | nil => simp at h
  | cons s rest ih =>
    obtain ⟨t, ht, htnil⟩ := h
    rcases List.mem_cons.mp ht with rfl | htr
    · rw [group_batches, htnil]
      rfl
    · rw [group_batches, ih ⟨t, htr, htnil⟩]
      rcases hak : ak_concatenate ((sample_batches retrieved s).map (fun b => b.processed_data))
        with _ | d <;> rw [hak]

lemma group_batches_all_some (retrieved : List DataBatch) (samples : List String)
    (hdata : ∀ b ∈ retrieved, b.processed_data.isSome)
    (hall : ∀ s ∈ samples, sample_batches retrieved s ≠ []) :
    group_batches retrieved samples
      = some (samples.map (fun s => (s, groupData retrieved s))) := by
  induction samples with
  | nil => rfl
  | cons s rest ih =>
    have hcat : ak_concatenate ((sample_batches retrieved s).map (fun b => b.processed_data))
        = some (groupData retrieved s) := by
      rw [ak_concatenate_all_some _ (by
            intro hcon
            exact hall s (List.mem_cons_self _ _) (by simpa using hcon))
          (by
            intro x hx
            obtain ⟨b, hb, rfl⟩ := List.mem_map.mp hx
            exact hdata b (List.mem_filter.mp hb).1)]
      rw [groupData, List.map_map]
      rfl
    rw [group_batches, hcat, ih (fun t htr => hall t (List.mem_cons_of_mem _ htr))]
    rfl

/-- Retrieved batch belonging to a sample outside the configured list,
used in the C5 counterexample. -/
def batchX : DataBatch := { batchA with sample := "x", processed_data := some [1] }

/-- C5 counterexample: a run that reaches aggregation in which the sample
group has zero retrieved results (no retrieved unit belongs to it) does
not fail with the no-data diagnostic naming the sample: `ak.concatenate`
raises on the empty per-sample list inside `group_batches`, so the run
aborts with an uncaught exception before the per-sample check. -/
theorem C5_counterexample :
    main_run true [batchX] [batchX] ["data"] = RunResult.crashConcat := by decide

/-- C5 amended: in a run reaching aggregation, a sample with zero
retrieved batches crashes the aggregator with an uncaught concatenate
exception (fatal, but without the no-data diagnostic).  When every sample
has at least one retrieved batch carrying its result: if some sample's
aggregated collection is empty the run exits with the no-data diagnostic
naming such a sample (exit code 1); otherwise the run succeeds, warning
exactly for the samples with fewer than 50 entries, so samples with 50 or
more entries get no warning. -/
theorem C5_aggregation_amended (retrieved : List DataBatch) (samples : List String) :
    ((∃ s ∈ samples, sample_batches retrieved s = []) →
        aggregate_stage retrieved samples = RunResult.crashConcat)
    ∧ ((∀ b ∈ retrieved, b.processed_data.isSome) →
        (∀ s ∈ samples, sample_batches retrieved s ≠ []) →
        ((∀ s ∈ samples, groupData retrieved s ≠ []) →
            aggregate_stage retrieved samples
              = RunResult.success
                  (samples.filter (fun s => (groupData retrieved s).length < 50)))
        ∧ (∀ s ∈ samples, groupData retrieved s = [] →
            ∃ t ∈ samples, groupData retrieved t = []
              ∧ aggregate_stage retrieved samples = RunResult.emptyGroup t
              ∧ exitCode (RunResult.emptyGroup t) = 1)) := by
  constructor
  · intro h
    rw [aggregate_stage, group_batches_none retrieved samples h]
  · intro hdata hall
    have hgb := group_batches_all_some retrieved samples hdata hall
    constructor
    · intro hne
      rw [aggregate_stage, hgb]
      simp only [check_samples]
      have hf0 : samples.find? ((fun (p : String × List ℕ) => p.2.length == 0)
          ∘ (fun s => (s, groupData retrieved s))) = none := by
        rw [List.find?_eq_none]
        intro s hs
        simp only [Function.comp_apply, beq_iff_eq]
        simpa using hne s hs
      rw [List.find?_map, hf0]
      have hfil : (samples.map (fun s => (s, groupData retrieved s))).filter
            (fun p => p.2.length < 50)
          = (samples.filter (fun s => (groupData retrieved s).length < 50)).map
              (fun s => (s, groupData retrieved s)) := by
        rw [List.filter_map]
        rfl
      rw [hfil, List.map_map]
      have hid : (Prod.fst ∘ fun s => (s, groupData retrieved s)) = fun s : String => s := rfl
      rw [hid, List.map_id']
      rfl
    · intro s hs hsnil
      rw [aggregate_stage, hgb]
      simp only [check_samples]
      rw [List.find?_map]
      have hex : (samples.find? ((fun (p : String × List ℕ) => p.2.length == 0)
          ∘ (fun s => (s, groupData retrieved s)))).isSome := by
        rw [List.find?_isSome]
        exact ⟨s, hs, by simp [hsnil]⟩
      rcases hfq : samples.find? ((fun (p : String × List ℕ) => p.2.length == 0)
          ∘ (fun s => (s, groupData retrieved s))) with _ | t
      · rw [hfq] at hex
        simp at hex
      · have htmem := List.mem_of_find?_eq_some hfq
        have htprop := List.find?_some hfq
        refine ⟨t, htmem, ?_, ?_, rfl⟩
        · simpa using htprop
        · rfl

/-- C5 witness: the amended theorem at a concrete run whose single sample
has one retrieved batch with two entries: the run succeeds and the sample
is warned as below the minimum population. -/
theorem C5_witness :
    aggregate_stage [batchA_done] ["data"]
      = RunResult.success
          (["data"].filter (fun s => (groupData [batchA_done] s).length < 50)) :=
  ((C5_aggregation_amended [batchA_done] ["data"]).2 (by decide) (by decide)).1 (by decide)

/-- C2: in a run where one of two dispatched batches is missing (a
non-zero missing count not exceeding 50 percent), the coordinator does not
print the missing batches and proceed: it crashes with an uncaught
TypeError, because line 75 of higgs_manager.py iterates the function
object `missing_batches` instead of the computed list
`missing_data_batches`. -/
theorem C2_missing_warning_path_crashes :
    main_run true [batchA, batchB] [batchA_done] ["data"] = RunResult.crashTypeError := by
  decide

/-- C6 counterexample: the connection-failure path and the
zero-results-retrieved path exit with the same code 1, so the non-zero
exit codes are not distinct. -/
theorem C6_counterexample :
    exitCode (main_run false [batchA] [batchA_done] ["data"]) = 1
    ∧ exitCode (main_run true [batchA] [] ["data"]) = 1 := by decide

/-- C6 amended: the coordinator exits with code 0 on success, and every
failure path, connection failure, zero results retrieved and excessive
missing data alike, exits with the same code 1, so scripts can tell
success from failure but cannot tell the failure causes apart. -/
theorem C6_exit_codes_amended (batches retrieved : List DataBatch) (samples : List String) :
    exitCode (main_run false batches retrieved samples) = 1
    ∧ (retrieved.length = 0 → exitCode (main_run true batches retrieved samples) = 1)
    ∧ (∀ ms, retrieved.length ≠ 0 → missing_batches batches retrieved = some ms →
        batches.length / 2 < ms.length →
        exitCode (main_run true batches retrieved samples) = 1)
    ∧ (∀ w, main_run true batches retrieved samples = RunResult.success w →
        exitCode (main_run true batches retrieved samples) = 0) := by
  refine ⟨rfl, ?_, ?_, ?_⟩
  · intro h
    simp [main_run, h, exitCode]
  · intro ms hlen hms hgt
    simp [main_run, hlen, hms, hgt, exitCode]
  · intro w h
    rw [h]
    rfl

/-- C6 witness: the amended theorem applied to the empty concrete run:
both the connection-failure path and the zero-results path exit 1. -/
theorem C6_witness :
    exitCode (main_run false [] [] []) = 1 ∧ exitCode (main_run true [] [] []) = 1 :=
  ⟨(C6_exit_codes_amended [] [] []).1, (C6_exit_codes_amended [] [] []).2.1 rfl⟩

/-- C7: deserialising a serialised unit yields the unit back
field-for-field, for every combination of field values including the
result payload absent and present. -/
theorem C7_pickle_roundtrip (b : DataBatch) : pickle_loads (pickle_dumps b) = some b := by
  cases b with
  | mk a s ss st p fr i1 i2 pd => cases pd <;> rfl

/-- Batch with a distinctive id for the C8 counterexample. -/
def batchXyz : DataBatch := { batchA with batch_id := "xyz" }

/-- C8 counterexample: the failure log line is identical for two units
with different identities, so the worker does not log the failure with
the unit identity, only with the exception message. -/
theorem C8_counterexample :
    batchA.batch_id ≠ batchXyz.batch_id
    ∧ worker_step (fun _ => Except.error "boom") 7 batchA
        = worker_step (fun _ => Except.error "boom") 7 batchXyz := by decide

/-- C8 amended: for every pulled task unit, if processing raises an error
the worker logs the failure with the exception message (but not the unit
identity), negatively acknowledges with requeue and continues its loop;
if processing succeeds it publishes the enriched unit to the results
queue and then acknowledges the task message. -/
theorem C8_worker_amended (proc : DataBatch → Except String DataBatch) (tag : ℕ)
    (b : DataBatch) :
    (∀ e, proc b = Except.error e →
        worker_iteration (some (tag, b)) proc
          = WorkerIter.continueLoop
              [WAction.log ("error: failed to process batch " ++ e), WAction.nack tag true])
    ∧ (∀ pb, proc b = Except.ok pb →
        worker_iteration (some (tag, b)) proc
          = WorkerIter.continueLoop [WAction.publish "results" pb, WAction.ack tag]) := by
  constructor <;> intro x hx <;> simp [worker_iteration, worker_step, hx]

/-- C8 witness: the amended theorem at a concrete failing processing
function and a concrete succeeding one. -/
theorem C8_witness :
    worker_iteration (some (7, batchA)) (fun _ => Except.error "boom")
      = WorkerIter.continueLoop
          [WAction.log ("error: failed to process batch " ++ "boom"), WAction.nack 7 true]
    ∧ worker_iteration (some (7, batchA)) (fun b => Except.ok b)
      = WorkerIter.continueLoop [WAction.publish "results" batchA, WAction.ack 7] :=
  ⟨(C8_worker_amended (fun _ => Except.error "boom") 7 batchA).1 "boom" rfl,
   (C8_worker_amended (fun b => Except.ok b) 7 batchA).2 batchA rfl⟩
